import Mathlib

/-!
Shallow embedding of the rustdoc crawl-and-index subsystem from
`src/librustdoc/html/mod.rs` (`Cache`, `HtmlRenderer::render`), together
with the parts of the build pipeline that the sources only declare or call
(`Cache::fold_crate`, the orphan flush and `build_index`), which are
modelled from the specification.  Machine maps (`HashMap`) are embedded as
partial functions; the multi-valued, insertion-order-preserving maps
`impls` and `implementors` are embedded as flat key-tagged lists whose
per-key view is obtained by filtering.
-/

set_option linter.unusedVariables false

abbrev CrateNum := Nat
abbrev NodeId := Nat

/-- Symbol identity: a (compilation-unit number, in-unit node number) pair,
mirroring `ast::DefId`. -/
structure DefId where
  krate : CrateNum
  node : NodeId
deriving DecidableEq

/-- Mirrors `ast::LOCAL_CRATE` (crate number 0). -/
def LOCAL_CRATE : CrateNum := 0

/-- Mirrors `ast::CRATE_NODE_ID` (node id 0). -/
def CRATE_NODE_ID : NodeId := 0

/-- Shallow model of a `HashMap`: a partial function from keys to values. -/
def Map (α β : Type) : Type := α → Option β

def Map.empty {α β : Type} : Map α β := fun _ => none

/-- Mirrors `HashMap::insert`: the new binding replaces any previous one. -/
def Map.insert {α β : Type} [DecidableEq α] (m : Map α β) (k : α) (v : β) :
    Map α β :=
  fun q => if q = k then some v else m q

/-- Item kinds recorded in path entries, mirroring `item_type::ItemType`
(the constructors used by `render`). -/
inductive ItemType where
  | Module
  | Struct
  | Enum
  | Function
  | Trait
  | Static
  | Variant
  | Typedef
deriving DecidableEq

/-- Type kinds delivered by the analysis pass, mirroring `clean::TypeKind`. -/
inductive TypeKind where
  | TypeStruct
  | TypeEnum
  | TypeFunction
  | TypeTrait
  | TypeModule
  | TypeStatic
  | TypeVariant
  | TypeTypedef
deriving DecidableEq

/-- The `match t { ... }` translation of `clean::TypeKind` into
`item_type::ItemType` inside `render` (html/mod.rs lines 326-335). -/
def kindToItemType : TypeKind → ItemType
  | TypeKind.TypeStruct => ItemType.Struct
  | TypeKind.TypeEnum => ItemType.Enum
  | TypeKind.TypeFunction => ItemType.Function
  | TypeKind.TypeTrait => ItemType.Trait
  | TypeKind.TypeModule => ItemType.Module
  | TypeKind.TypeStatic => ItemType.Static
  | TypeKind.TypeVariant => ItemType.Variant
  | TypeKind.TypeTypedef => ItemType.Typedef

/-- Mirrors `ExternalLocation` (html/mod.rs lines 116-123). -/
inductive ExternalLocation where
  | Remote (url : String)
  | Local
  | Unknown
deriving DecidableEq

/-- Abstraction of `clean::Trait` as stored in `Cache::traits`; its internal
structure is irrelevant to the indexing algorithm. -/
structure CleanTrait where
  name : String
deriving DecidableEq

/-- Implementation record, abstracting `Impl` (html/mod.rs lines 136-140):
the implemented trait (if any) and the target type, each reduced to its
symbol identity. -/
structure ImplRecord where
  trait_ : Option DefId
  for_ : DefId
deriving DecidableEq

/-- Mirrors `Implementor` (html/mod.rs lines 126-132), with the type fields
reduced to symbol identities. -/
structure Implementor where
  def_id : DefId
  trait_ : DefId
  for_ : DefId
deriving DecidableEq

/-- Mirrors `IndexItem` (html/mod.rs lines 234-240): one entry of the JS
search index. -/
structure IndexItem where
  ty : ItemType
  name : String
  path : String
  desc : String
  parent : Option DefId
deriving DecidableEq

/-- Mirrors `Cache` (html/mod.rs lines 151-210).  `impls` and
`implementors` are embedded as flat key-tagged lists (the per-key `Vec` of
the source is the sublist with that key, in insertion order); the sets
`public_items` and `inlined` are membership predicates. -/
structure Cache where
  typarams : Map DefId String
  impls : List (DefId × ImplRecord)
  paths : Map DefId (List String × ItemType)
  external_paths : Map DefId (List String)
  traits : Map DefId CleanTrait
  implementors : List (DefId × Implementor)
  extern_locations : Map CrateNum ExternalLocation
  primitive_locations : Map Nat CrateNum
  inlined : DefId → Bool
  stack : List String
  parent_stack : List DefId
  search_index : List IndexItem
  privmod : Bool
  public_items : NodeId → Bool
  orphan_methods : List (DefId × Option DefId)

/-- Mirrors the analysis data read by `render` (html/mod.rs lines 319-360):
`public_items` is cloned directly, while the other four structures sit in
`RefCell<Option<_>>` cells that `render` consumes with
`borrow_mut().take().unwrap()` — hence the `Option` wrapping here. -/
structure Analysis where
  public_items : NodeId → Bool
  external_paths : Option (Map DefId (List String × TypeKind))
  external_traits : Option (Map DefId CleanTrait)
  external_typarams : Option (Map DefId String)
  inlined : Option (DefId → Bool)

mutual

/-- Modelled from the spec: the parsed declaration tree consumed by the
crawl (`Cache::fold_crate` is not part of the provided sources).  A
declaration is a module with children, a plain item, or an implementation
block whose target type and implemented trait are reduced to symbol
identities. -/
inductive Decl where
  | module (id : NodeId) (name : String) (isPublic : Bool) (children : DeclList)
  | leaf (id : NodeId) (name : String) (kind : ItemType) (desc : String)
  | implBlock (target : DefId) (traitId : Option DefId)

/-- Modelled from the spec: a list of sibling declarations (mutual with
`Decl` so that the crawl and its proofs are structurally recursive). -/
inductive DeclList where
  | nil
  | cons (d : Decl) (ds : DeclList)

end

/-- Conversion from an ordinary list of declarations, used to write down
concrete trees. -/
def DeclList.ofList : List Decl → DeclList
  | [] => .nil
  | d :: ds => .cons d (DeclList.ofList ds)

/-- Mirrors `clean::ExternalCrate` as used by `render`: a crate name and
the primitive types the crate defines. -/
structure ExternalCrate where
  name : String
  primitives : List Nat
deriving DecidableEq

/-- Mirrors the fields of `clean::Crate` consumed by `render`: crate name,
optional root module, the externs list and the local primitive list. -/
structure Krate where
  name : String
  module : Option Decl
  externs : List (CrateNum × ExternalCrate)
  primitives : List Nat

/-- Renders a name-segment stack as a `::`-joined path string, mirroring
`stack.connect("::")`. -/
def joinPath (l : List String) : String := String.intercalate "::" l

/-- Modelled from the spec: derive one `Implementor` record from an
implementation record for trait `tr` on target `t` (the implementing
type's identity is the target's identity). -/
def mkImplementor (t : DefId) (tr : DefId) : Implementor :=
  { def_id := t, trait_ := tr, for_ := t }

/-- Modelled from the spec: the implementation record appended for an
implementation block with trait `tr` and target `t`. -/
def mkImplRecord (tr : Option DefId) (t : DefId) : ImplRecord :=
  { trait_ := tr, for_ := t }

/-- Modelled from the spec: append an implementation record under the
target's identity and, when a trait is implemented, the derived implementor
record under the trait's identity. -/
def addImpl (c : Cache) (t : DefId) (tr : Option DefId) : Cache :=
  let c1 := { c with impls := c.impls ++ [(t, mkImplRecord tr t)] }
  match tr with
  | some trId =>
      { c1 with implementors := c1.implementors ++ [(trId, mkImplementor t trId)] }
  | none => c1

/-- Modelled from the spec: visiting an implementation block.  The target
is resolved against the path table as it currently stands; when
unresolved, the block is queued in the orphan queue tagged with the
target's identity. -/
def visitImpl (c : Cache) (t : DefId) (tr : Option DefId) : Cache :=
  match c.paths t with
  | some _ => addImpl c t tr
  | none => { c with orphan_methods := c.orphan_methods ++ [(t, tr)] }

/-- Modelled from the spec: visiting a plain declaration.  Its path entry
(current stack plus its own name) is recorded under its symbol identity,
first writer wins; a search index item is emitted unless the private-scope
flag is set. -/
def recordItem (c : Cache) (id : NodeId) (name : String) (kind : ItemType)
    (desc : String) : Cache :=
  let did : DefId := ⟨LOCAL_CRATE, id⟩
  match c.paths did with
  | some _ => c
  | none =>
      let c1 := { c with paths := c.paths.insert did (c.stack ++ [name], kind) }
      if c1.privmod then c1
      else
        { c1 with search_index := c1.search_index ++
            [{ ty := kind, name := name, path := joinPath c1.stack, desc := desc,
               parent := c1.parent_stack.getLast? }] }

mutual

/-- Modelled from the spec: the DFS crawl (`Cache::fold_crate`).  Modules
record their own path entry, push their name onto the name-segment stack,
set the private-scope flag when non-public, recurse, and restore both on
exit; plain items record a path entry; implementation blocks are resolved
or queued. -/
def crawlDecl : Decl → Cache → Cache
  | .leaf id name kind desc, c => recordItem c id name kind desc
  | .implBlock t tr, c => visitImpl c t tr
  | .module id name isPublic children, c =>
      let c1 := recordItem c id name ItemType.Module ""
      let savedPriv := c1.privmod
      let savedStack := c1.stack
      let c2 := crawlList children
        { c1 with privmod := c1.privmod || !isPublic,
                  stack := c1.stack ++ [name] }
      { c2 with privmod := savedPriv, stack := savedStack }

/-- Modelled from the spec: crawl a list of sibling declarations in order. -/
def crawlList : DeclList → Cache → Cache
  | .nil, c => c
  | .cons d ds, c => crawlList ds (crawlDecl d c)

end

mutual

/-- Modelled from the spec: whether the tree contains an implementation
block with the given target and trait. -/
def Decl.hasImplB : Decl → DefId → Option DefId → Bool
  | .leaf _ _ _ _, _, _ => false
  | .implBlock t tr, t0, tr0 => decide (t = t0) && decide (tr = tr0)
  | .module _ _ _ children, t0, tr0 => DeclList.hasImplB children t0 tr0

/-- Modelled from the spec: `Decl.hasImplB` over sibling lists. -/
def DeclList.hasImplB : DeclList → DefId → Option DefId → Bool
  | .nil, _, _ => false
  | .cons d ds, t0, tr0 => Decl.hasImplB d t0 tr0 || DeclList.hasImplB ds t0 tr0

end

/-- Modelled from the spec: the single post-crawl orphan flush, processing
the queue in order; each entry is re-resolved against the path table and
merged exactly as the crawl would have done; unresolved entries are
skipped (dropped). -/
def flushList : List (DefId × Option DefId) → Cache → Cache
  | [], c => c
  | (t, tr) :: rest, c =>
      match c.paths t with
      | some _ => flushList rest (addImpl c t tr)
      | none => flushList rest c

/-- Modelled from the spec: flush the orphan queue once and drop whatever
remains unresolved. -/
def flushOrphans (c : Cache) : Cache :=
  { flushList c.orphan_methods c with orphan_methods := [] }

/-- Embedding of the cache construction in `render` (html/mod.rs lines
319-361): with no analysis data every analysis-derived structure defaults
to an empty structure; with analysis data the four `RefCell<Option<_>>`
cells are consumed (`take().unwrap()`), which is a failure when a cell is
empty — hence the `Option` result. -/
def initialCache (analysis : Option Analysis) : Option Cache :=
  match analysis with
  | none =>
      some { typarams := Map.empty, impls := [], paths := Map.empty,
             external_paths := Map.empty, traits := Map.empty,
             implementors := [], extern_locations := Map.empty,
             primitive_locations := Map.empty, inlined := fun _ => false,
             stack := [], parent_stack := [], search_index := [],
             privmod := false, public_items := fun _ => false,
             orphan_methods := [] }
  | some a =>
      match a.external_paths, a.external_traits, a.external_typarams, a.inlined with
      | some rawPaths, some traits0, some typarams0, some inlined0 =>
          let paths0 : Map DefId (List String × ItemType) :=
            fun k => (rawPaths k).map (fun pv => (pv.1, kindToItemType pv.2))
          some { typarams := typarams0, impls := [], paths := paths0,
                 external_paths := fun k => (paths0 k).map Prod.fst,
                 traits := traits0, implementors := [],
                 extern_locations := Map.empty, primitive_locations := Map.empty,
                 inlined := inlined0, stack := [], parent_stack := [],
                 search_index := [], privmod := false,
                 public_items := a.public_items, orphan_methods := [] }
      | _, _, _, _ => none

/-- Embedding of `cache.stack.push(self.krate.name.clone())`
(html/mod.rs line 362). -/
def pushCrateName (k : Krate) (c : Cache) : Cache :=
  { c with stack := c.stack ++ [k.name] }

/-- Embedding of `self.krate = cache.fold_crate(self.krate)`
(html/mod.rs line 363); the crawl itself is modelled from the spec. -/
def crawlStage (k : Krate) (c : Cache) : Cache :=
  match k.module with
  | some m => crawlDecl m c
  | none => c

/-- State of the cache when the crawl phase of `render` has completed. -/
def afterCrawl (k : Krate) (c0 : Cache) : Cache :=
  crawlStage k (pushCrateName k c0)

/-- Embedding of the extern-location loop (html/mod.rs lines 366-370): for
each extern `(n, e)` record its external location and insert a crate-root
path entry `{krate: n, node: CRATE_NODE_ID} -> ([e.name], Module)`. -/
def externLoop (l : List (CrateNum × ExternalCrate))
    (loc : ExternalCrate → ExternalLocation) (c : Cache) : Cache :=
  match l with
  | [] => c
  | (n, e) :: rest =>
      externLoop rest loc
        { c with
          extern_locations := c.extern_locations.insert n (loc e),
          paths := c.paths.insert ⟨n, CRATE_NODE_ID⟩ ([e.name], ItemType.Module) }

/-- The extern-location stage of `render`. -/
def externStage (k : Krate) (loc : ExternalCrate → ExternalLocation)
    (c : Cache) : Cache :=
  externLoop k.externs loc c

/-- Embedding of the inner primitive insertion: record location `n` for
every primitive the crate defines (html/mod.rs lines 377-379, 381-383). -/
def insertPrims (c : Cache) (prims : List Nat) (n : CrateNum) : Cache :=
  match prims with
  | [] => c
  | p :: rest =>
      insertPrims { c with primitive_locations := c.primitive_locations.insert p n }
        rest n

/-- Embedding of the external-primitive loop (html/mod.rs lines 376-380):
iterate the externs list reversed (the caller passes `externs.reverse`),
inserting each crate's primitives. -/
def primExternLoop (l : List (CrateNum × ExternalCrate)) (c : Cache) : Cache :=
  match l with
  | [] => c
  | (n, e) :: rest => primExternLoop rest (insertPrims c e.primitives n)

/-- Embedding of the local-primitive loop (html/mod.rs lines 381-383). -/
def primLocalLoop (prims : List Nat) (c : Cache) : Cache :=
  insertPrims c prims LOCAL_CRATE

/-- The primitive-location stage of `render`: externs in reverse order,
then the local crate's own primitives. -/
def primStage (k : Krate) (c : Cache) : Cache :=
  primLocalLoop k.primitives (primExternLoop k.externs.reverse c)

/-- Modelled from the spec: `build_index` (called at html/mod.rs line 386
but not itself part of the provided sources) performs the single orphan
flush against the now-complete path table and returns the search index
accumulated during the crawl. -/
def buildIndexStage (c : Cache) : Cache × List IndexItem :=
  let c1 := flushOrphans c
  (c1, c1.search_index)

/-- The build pipeline of `render` from an already-constructed cache:
push the crate name, crawl, record extern locations, resolve primitive
locations, build the search index (html/mod.rs lines 362-386). -/
def buildFrom (k : Krate) (loc : ExternalCrate → ExternalLocation)
    (c0 : Cache) : Cache × List IndexItem :=
  buildIndexStage (primStage k (externStage k loc (afterCrawl k c0)))

/-- The whole build performed by `render` before publication: construct
the cache from the optional analysis data, then run the pipeline. -/
def renderBuild (k : Krate) (a : Option Analysis)
    (loc : ExternalCrate → ExternalLocation) : Option (Cache × List IndexItem) :=
  (initialCache a).map (buildFrom k loc)

/-- Embedding of `cache_key.replace(Some(cache.clone()))`: publishing a
snapshot replaces the slot's contents. -/
def publish (slot : Option Cache) (snapshot : Cache) : Option Cache :=
  some snapshot

/-- Reading the process-wide slot yields its current contents. -/
def readSlot (slot : Option Cache) : Option Cache := slot

/-- One step of `render`'s sequence, paired with the contents of the
process-wide slot after the step. -/
structure RenderStep where
  label : String
  slotAfter : Option Cache

/-- The ordered sequence of steps `render` performs (html/mod.rs lines
362-398), each paired with the slot contents after it: publication
(`cache_key.replace`) happens only once every build phase has completed,
and the post-publication steps read the published snapshot without
changing it. -/
def renderSteps (k : Krate) (a : Option Analysis)
    (loc : ExternalCrate → ExternalLocation) :
    Option (List RenderStep × Cache) :=
  (initialCache a).map (fun c0 =>
    let c4 := primStage k (externStage k loc (afterCrawl k c0))
    let c5 := (buildIndexStage c4).1
    let slot := publish none c5
    ([{ label := "construct_cache", slotAfter := none },
      { label := "fold_crate", slotAfter := none },
      { label := "extern_locations", slotAfter := none },
      { label := "primitive_locations", slotAfter := none },
      { label := "build_index", slotAfter := none },
      { label := "publish", slotAfter := slot },
      { label := "write_shared", slotAfter := slot },
      { label := "render_sources", slotAfter := slot },
      { label := "render_krate", slotAfter := slot }], c5))

/-- The trait-keyed inverse view of a flat implementation list: one
implementor entry per implementation record whose trait field is present,
keyed by the trait's identity. -/
def implementorsFromImpls (l : List (DefId × ImplRecord)) :
    List (DefId × Implementor) :=
  l.filterMap (fun p => p.2.trait_.map (fun tr => (tr, mkImplementor p.1 tr)))

/-- Whether the crate's declaration tree contains an implementation block
with the given target and trait. -/
def krateHasImpl (k : Krate) (t : DefId) (tr : Option DefId) : Bool :=
  match k.module with
  | some m => m.hasImplB t tr
  | none => false

/-! Basic lemmas about the primitive cache operations. -/

theorem head?_append_left {α : Type} (l l' : List α) (a : α)
    (h : l.head? = some a) : (l ++ l').head? = some a := by
  cases l <;> simp_all

theorem addImpl_paths (c : Cache) (t : DefId) (tr : Option DefId) :
    (addImpl c t tr).paths = c.paths := by
  cases tr <;> rfl

theorem addImpl_fixed (c : Cache) (t : DefId) (tr : Option DefId) :
    (addImpl c t tr).stack = c.stack ∧
    (addImpl c t tr).privmod = c.privmod ∧
    (addImpl c t tr).search_index = c.search_index ∧
    (addImpl c t tr).orphan_methods = c.orphan_methods ∧
    (addImpl c t tr).primitive_locations = c.primitive_locations ∧
    (addImpl c t tr).extern_locations = c.extern_locations := by
  cases tr <;> exact ⟨rfl, rfl, rfl, rfl, rfl, rfl⟩

theorem addImpl_impls (c : Cache) (t : DefId) (tr : Option DefId) :
    (addImpl c t tr).impls = c.impls ++ [(t, mkImplRecord tr t)] := by
  cases tr <;> rfl

theorem addImpl_implementors (c : Cache) (t : DefId) (tr : Option DefId) :
    (addImpl c t tr).implementors = c.implementors ++
      (match tr with
       | some trId => [(trId, mkImplementor t trId)]
       | none => []) := by
  cases tr <;> simp [addImpl]

theorem visitImpl_paths (c : Cache) (t : DefId) (tr : Option DefId) :
    (visitImpl c t tr).paths = c.paths := by
  unfold visitImpl
  cases tr <;> cases hc : c.paths t <;> simp [hc, addImpl]

theorem visitImpl_fixed (c : Cache) (t : DefId) (tr : Option DefId) :
    (visitImpl c t tr).stack = c.stack ∧
    (visitImpl c t tr).privmod = c.privmod ∧
    (visitImpl c t tr).search_index = c.search_index ∧
    (visitImpl c t tr).primitive_locations = c.primitive_locations ∧
    (visitImpl c t tr).extern_locations = c.extern_locations := by
  unfold visitImpl
  cases tr <;> cases hc : c.paths t <;> simp [hc, addImpl]

theorem recordItem_paths (c : Cache) (id : NodeId) (name : String)
    (kind : ItemType) (desc : String) :
    (recordItem c id name kind desc).paths =
      match c.paths ⟨LOCAL_CRATE, id⟩ with
      | some _ => c.paths
      | none => Map.insert c.paths ⟨LOCAL_CRATE, id⟩ (c.stack ++ [name], kind) := by
  unfold recordItem
  cases hc : c.paths ⟨LOCAL_CRATE, id⟩ <;> simp only [hc] <;>
    first
    | rfl
    | (split <;> rfl)

theorem recordItem_fixed (c : Cache) (id : NodeId) (name : String)
    (kind : ItemType) (desc : String) :
    (recordItem c id name kind desc).stack = c.stack ∧
    (recordItem c id name kind desc).privmod = c.privmod ∧
    (recordItem c id name kind desc).impls = c.impls ∧
    (recordItem c id name kind desc).implementors = c.implementors ∧
    (recordItem c id name kind desc).orphan_methods = c.orphan_methods ∧
    (recordItem c id name kind desc).primitive_locations = c.primitive_locations ∧
    (recordItem c id name kind desc).extern_locations = c.extern_locations := by
  unfold recordItem
  cases hc : c.paths ⟨LOCAL_CRATE, id⟩ <;> simp only [hc] <;>
    first
    | simp
    | (split <;> simp)

theorem recordItem_search_priv (c : Cache) (id : NodeId) (name : String)
    (kind : ItemType) (desc : String) (h : c.privmod = true) :
    (recordItem c id name kind desc).search_index = c.search_index := by
  unfold recordItem
  cases hc : c.paths ⟨LOCAL_CRATE, id⟩ <;> simp [hc, h]

/-! Crawl invariants: fields the crawl never modifies, and restoration of
the scoped traversal state. -/

mutual

theorem crawlDecl_fixed (d : Decl) (c : Cache) :
    (crawlDecl d c).primitive_locations = c.primitive_locations ∧
    (crawlDecl d c).extern_locations = c.extern_locations ∧
    (crawlDecl d c).stack = c.stack ∧
    (crawlDecl d c).privmod = c.privmod := by
  cases d with
  | leaf id name kind desc =>
      obtain ⟨h1, h2, _, _, _, h6, h7⟩ := recordItem_fixed c id name kind desc
      exact ⟨h6, h7, h1, h2⟩
  | implBlock t tr =>
      obtain ⟨h1, h2, _, h4, h5⟩ := visitImpl_fixed c t tr
      exact ⟨h4, h5, h1, h2⟩
  | module id name isPublic children =>
      simp only [crawlDecl]
      obtain ⟨_, _, _, _, _, h6, h7⟩ :=
        recordItem_fixed c id name ItemType.Module ""
      obtain ⟨g1, g2, _, _⟩ := crawlList_fixed children
        { recordItem c id name ItemType.Module "" with
          privmod := (recordItem c id name ItemType.Module "").privmod || !isPublic,
          stack := (recordItem c id name ItemType.Module "").stack ++ [name] }
      obtain ⟨r1, r2, _, _, _, _, _⟩ := recordItem_fixed c id name ItemType.Module ""
      exact ⟨g1.trans h6, g2.trans h7, r1, r2⟩

theorem crawlList_fixed (ds : DeclList) (c : Cache) :
    (crawlList ds c).primitive_locations = c.primitive_locations ∧
    (crawlList ds c).extern_locations = c.extern_locations ∧
    (crawlList ds c).stack = c.stack ∧
    (crawlList ds c).privmod = c.privmod := by
  cases ds with
  | nil => exact ⟨rfl, rfl, rfl, rfl⟩
  | cons d rest =>
      obtain ⟨h1, h2, h3, h4⟩ := crawlDecl_fixed d c
      obtain ⟨g1, g2, g3, g4⟩ := crawlList_fixed rest (crawlDecl d c)
      exact ⟨g1.trans h1, g2.trans h2, g3.trans h3, g4.trans h4⟩

end

theorem recordItem_paths_mono (c : Cache) (id : NodeId) (name : String)
    (kind : ItemType) (desc : String) (did : DefId) (v : List String × ItemType)
    (h : c.paths did = some v) :
    (recordItem c id name kind desc).paths did = some v := by
  rw [recordItem_paths]
  cases hc : c.paths ⟨LOCAL_CRATE, id⟩ <;> simp only [hc]
  · by_cases hd : did = (⟨LOCAL_CRATE, id⟩ : DefId)
    · subst hd; rw [hc] at h; cases h
    · simp [Map.insert, hd]; exact h
  · exact h

mutual

theorem crawlDecl_paths_mono (d : Decl) (c : Cache) (did : DefId)
    (v : List String × ItemType) (h : c.paths did = some v) :
    (crawlDecl d c).paths did = some v := by
  cases d with
  | leaf id name kind desc => exact recordItem_paths_mono c id name kind desc did v h
  | implBlock t tr =>
      show (visitImpl c t tr).paths did = some v
      rw [visitImpl_paths]; exact h
  | module id name isPublic children =>
      show ({ crawlList children
        { recordItem c id name ItemType.Module "" with
          privmod := (recordItem c id name ItemType.Module "").privmod || !isPublic,
          stack := (recordItem c id name ItemType.Module "").stack ++ [name] } with
          privmod := (recordItem c id name ItemType.Module "").privmod,
          stack := (recordItem c id name ItemType.Module "").stack }).paths did = some v
      exact crawlList_paths_mono children _ did v
        (recordItem_paths_mono c id name ItemType.Module "" did v h)

theorem crawlList_paths_mono (ds : DeclList) (c : Cache) (did : DefId)
    (v : List String × ItemType) (h : c.paths did = some v) :
    (crawlList ds c).paths did = some v := by
  cases ds with
  | nil => exact h
  | cons d rest =>
      exact crawlList_paths_mono rest (crawlDecl d c) did v
        (crawlDecl_paths_mono d c did v h)

end

/-- Cache state on entering a module during the crawl: the module's own
path entry recorded, its name pushed, the private-scope flag updated. -/
def moduleEnter (c : Cache) (id : NodeId) (name : String) (isPublic : Bool) :
    Cache :=
  { recordItem c id name ItemType.Module "" with
    privmod := (recordItem c id name ItemType.Module "").privmod || !isPublic,
    stack := (recordItem c id name ItemType.Module "").stack ++ [name] }

theorem crawlDecl_leaf_eq (id : NodeId) (name : String) (kind : ItemType)
    (desc : String) (c : Cache) :
    crawlDecl (Decl.leaf id name kind desc) c = recordItem c id name kind desc := rfl

theorem crawlDecl_impl_eq (t : DefId) (tr : Option DefId) (c : Cache) :
    crawlDecl (Decl.implBlock t tr) c = visitImpl c t tr := rfl

theorem crawlDecl_module_eq (id : NodeId) (name : String) (isPublic : Bool)
    (children : DeclList) (c : Cache) :
    crawlDecl (Decl.module id name isPublic children) c =
      { crawlList children (moduleEnter c id name isPublic) with
        privmod := (recordItem c id name ItemType.Module "").privmod,
        stack := (recordItem c id name ItemType.Module "").stack } := rfl

theorem crawlList_nil_eq (c : Cache) : crawlList DeclList.nil c = c := rfl

theorem crawlList_cons_eq (d : Decl) (ds : DeclList) (c : Cache) :
    crawlList (DeclList.cons d ds) c = crawlList ds (crawlDecl d c) := rfl

theorem recordItem_paths_new (c : Cache) (id : NodeId) (name : String)
    (kind : ItemType) (desc : String) (did : DefId) (v : List String × ItemType)
    (h : (recordItem c id name kind desc).paths did = some v) :
    c.paths did = some v ∨ v.1 = c.stack ++ [name] := by
  rw [recordItem_paths] at h
  cases hc : c.paths ⟨LOCAL_CRATE, id⟩ <;> simp only [hc] at h
  · by_cases hd : did = (⟨LOCAL_CRATE, id⟩ : DefId)
    · subst hd
      simp only [Map.insert, if_pos rfl] at h
      right
      cases h
      rfl
    · simp only [Map.insert, if_neg hd] at h
      exact Or.inl h
  · exact Or.inl h

mutual

theorem crawlDecl_paths_head (d : Decl) (c : Cache) (nm : String)
    (hs : c.stack.head? = some nm) (did : DefId) (v : List String × ItemType)
    (h : (crawlDecl d c).paths did = some v) :
    c.paths did = some v ∨ v.1.head? = some nm := by
  cases d with
  | leaf id name kind desc =>
      rw [crawlDecl_leaf_eq] at h
      rcases recordItem_paths_new c id name kind desc did v h with h1 | h2
      · exact Or.inl h1
      · right; rw [h2]; exact head?_append_left c.stack [name] nm hs
  | implBlock t tr =>
      rw [crawlDecl_impl_eq] at h
      rw [visitImpl_paths] at h
      exact Or.inl h
  | module id name isPublic children =>
      rw [crawlDecl_module_eq] at h
      have hstack : (moduleEnter c id name isPublic).stack.head? = some nm := by
        show ((recordItem c id name ItemType.Module "").stack ++ [name]).head? = some nm
        rw [(recordItem_fixed c id name ItemType.Module "").1]
        exact head?_append_left c.stack [name] nm hs
      have h' : (crawlList children (moduleEnter c id name isPublic)).paths did = some v := h
      rcases crawlList_paths_head children (moduleEnter c id name isPublic) nm hstack did v h' with h1 | h2
      · have h1' : (recordItem c id name ItemType.Module "").paths did = some v := h1
        rcases recordItem_paths_new c id name ItemType.Module "" did v h1' with g1 | g2
        · exact Or.inl g1
        · right; rw [g2]; exact head?_append_left c.stack [name] nm hs
      · exact Or.inr h2

theorem crawlList_paths_head (ds : DeclList) (c : Cache) (nm : String)
    (hs : c.stack.head? = some nm) (did : DefId) (v : List String × ItemType)
    (h : (crawlList ds c).paths did = some v) :
    c.paths did = some v ∨ v.1.head? = some nm := by
  cases ds with
  | nil => exact Or.inl h
  | cons d rest =>
      rw [crawlList_cons_eq] at h
      have hs' : (crawlDecl d c).stack.head? = some nm := by
        rw [(crawlDecl_fixed d c).2.2.1]; exact hs
      rcases crawlList_paths_head rest (crawlDecl d c) nm hs' did v h with h1 | h2
      · exact crawlDecl_paths_head d c nm hs did v h1
      · exact Or.inr h2

end

theorem visitImpl_impls_mono (c : Cache) (t : DefId) (tr : Option DefId)
    (p : DefId × ImplRecord) (h : p ∈ c.impls) : p ∈ (visitImpl c t tr).impls := by
  unfold visitImpl
  cases hc : c.paths t <;> simp only [hc]
  · exact h
  · rw [addImpl_impls]; exact List.mem_append_left _ h

theorem visitImpl_orphans_mono (c : Cache) (t : DefId) (tr : Option DefId)
    (q : DefId × Option DefId) (h : q ∈ c.orphan_methods) :
    q ∈ (visitImpl c t tr).orphan_methods := by
  unfold visitImpl
  cases hc : c.paths t <;> simp only [hc]
  · exact List.mem_append_left _ h
  · rw [(addImpl_fixed c t tr).2.2.2.1]; exact h

mutual

theorem crawlDecl_mem_mono (d : Decl) (c : Cache) :
    (∀ p, p ∈ c.impls → p ∈ (crawlDecl d c).impls) ∧
    (∀ q, q ∈ c.orphan_methods → q ∈ (crawlDecl d c).orphan_methods) := by
  cases d with
  | leaf id name kind desc =>
      rw [crawlDecl_leaf_eq]
      obtain ⟨_, _, hi, _, ho, _, _⟩ := recordItem_fixed c id name kind desc
      exact ⟨fun p hp => hi ▸ hp, fun q hq => ho ▸ hq⟩
  | implBlock t tr =>
      rw [crawlDecl_impl_eq]
      exact ⟨fun p hp => visitImpl_impls_mono c t tr p hp,
             fun q hq => visitImpl_orphans_mono c t tr q hq⟩
  | module id name isPublic children =>
      rw [crawlDecl_module_eq]
      obtain ⟨_, _, hi, _, ho, _, _⟩ := recordItem_fixed c id name ItemType.Module ""
      obtain ⟨gi, go⟩ := crawlList_mem_mono children (moduleEnter c id name isPublic)
      constructor
      · intro p hp
        show p ∈ (crawlList children (moduleEnter c id name isPublic)).impls
        exact gi p (by show p ∈ (recordItem c id name ItemType.Module "").impls; rw [hi]; exact hp)
      · intro q hq
        show q ∈ (crawlList children (moduleEnter c id name isPublic)).orphan_methods
        exact go q (by show q ∈ (recordItem c id name ItemType.Module "").orphan_methods; rw [ho]; exact hq)

theorem crawlList_mem_mono (ds : DeclList) (c : Cache) :
    (∀ p, p ∈ c.impls → p ∈ (crawlList ds c).impls) ∧
    (∀ q, q ∈ c.orphan_methods → q ∈ (crawlList ds c).orphan_methods) := by
  cases ds with
  | nil => exact ⟨fun _ h => h, fun _ h => h⟩
  | cons d rest =>
      rw [crawlList_cons_eq]
      obtain ⟨hi, ho⟩ := crawlDecl_mem_mono d c
      obtain ⟨gi, go⟩ := crawlList_mem_mono rest (crawlDecl d c)
      exact ⟨fun p hp => gi p (hi p hp), fun q hq => go q (ho q hq)⟩

end

mutual

theorem crawlDecl_hasImpl (d : Decl) (c : Cache) (t : DefId) (tr : Option DefId)
    (h : Decl.hasImplB d t tr = true) :
    (t, mkImplRecord tr t) ∈ (crawlDecl d c).impls ∨
    (t, tr) ∈ (crawlDecl d c).orphan_methods := by
  cases d with
  | leaf id name kind desc => simp [Decl.hasImplB] at h
  | implBlock t1 tr1 =>
      simp only [Decl.hasImplB, Bool.and_eq_true, decide_eq_true_eq] at h
      obtain ⟨ht, htr⟩ := h
      subst ht; subst htr
      rw [crawlDecl_impl_eq]
      unfold visitImpl
      cases hc : c.paths t1 <;> simp only [hc]
      · right; exact List.mem_append_right _ (List.mem_singleton.mpr rfl)
      · left; rw [addImpl_impls]
        exact List.mem_append_right _ (List.mem_singleton.mpr rfl)
  | module id name isPublic children =>
      rw [crawlDecl_module_eq]
      have h' : DeclList.hasImplB children t tr = true := h
      rcases crawlList_hasImpl children (moduleEnter c id name isPublic) t tr h' with h1 | h2
      · exact Or.inl h1
      · exact Or.inr h2

theorem crawlList_hasImpl (ds : DeclList) (c : Cache) (t : DefId) (tr : Option DefId)
    (h : DeclList.hasImplB ds t tr = true) :
    (t, mkImplRecord tr t) ∈ (crawlList ds c).impls ∨
    (t, tr) ∈ (crawlList ds c).orphan_methods := by
  cases ds with
  | nil => simp [DeclList.hasImplB] at h
  | cons d rest =>
      rw [crawlList_cons_eq]
      simp only [DeclList.hasImplB, Bool.or_eq_true] at h
      rcases h with h1 | h2
      · rcases crawlDecl_hasImpl d c t tr h1 with g1 | g2
        · exact Or.inl ((crawlList_mem_mono rest (crawlDecl d c)).1 _ g1)
        · exact Or.inr ((crawlList_mem_mono rest (crawlDecl d c)).2 _ g2)
      · exact crawlList_hasImpl rest (crawlDecl d c) t tr h2

end

mutual

theorem crawlDecl_search_priv (d : Decl) (c : Cache) (h : c.privmod = true) :
    (crawlDecl d c).search_index = c.search_index := by
  cases d with
  | leaf id name kind desc =>
      rw [crawlDecl_leaf_eq]
      exact recordItem_search_priv c id name kind desc h
  | implBlock t tr =>
      rw [crawlDecl_impl_eq]
      exact (visitImpl_fixed c t tr).2.2.1
  | module id name isPublic children =>
      rw [crawlDecl_module_eq]
      have hp : (moduleEnter c id name isPublic).privmod = true := by
        show ((recordItem c id name ItemType.Module "").privmod || !isPublic) = true
        rw [(recordItem_fixed c id name ItemType.Module "").2.1, h]
        rfl
      have g := crawlList_search_priv children (moduleEnter c id name isPublic) hp
      show (crawlList children (moduleEnter c id name isPublic)).search_index = c.search_index
      rw [g]
      show (recordItem c id name ItemType.Module "").search_index = c.search_index
      exact recordItem_search_priv c id name ItemType.Module "" h

theorem crawlList_search_priv (ds : DeclList) (c : Cache) (h : c.privmod = true) :
    (crawlList ds c).search_index = c.search_index := by
  cases ds with
  | nil => rfl
  | cons d rest =>
      rw [crawlList_cons_eq]
      have hp : (crawlDecl d c).privmod = true := by
        rw [(crawlDecl_fixed d c).2.2.2]; exact h
      rw [crawlList_search_priv rest (crawlDecl d c) hp]
      exact crawlDecl_search_priv d c h

end

theorem crawlDecl_paths_none (d : Decl) (c : Cache) (t : DefId)
    (h : (crawlDecl d c).paths t = none) : c.paths t = none := by
  cases hv : c.paths t
  · rfl
  · have := crawlDecl_paths_mono d c t _ hv
    rw [h] at this
    cases this

theorem crawlList_paths_none (ds : DeclList) (c : Cache) (t : DefId)
    (h : (crawlList ds c).paths t = none) : c.paths t = none := by
  cases hv : c.paths t
  · rfl
  · have := crawlList_paths_mono ds c t _ hv
    rw [h] at this
    cases this

theorem visitImpl_target_none (c : Cache) (t0 : DefId) (tr0 : Option DefId)
    (t : DefId) (h : c.paths t = none) :
    (∀ r, (t, r) ∈ (visitImpl c t0 tr0).impls → (t, r) ∈ c.impls) ∧
    (∀ q, q ∈ (visitImpl c t0 tr0).implementors → q.2.for_ = t →
      q ∈ c.implementors) := by
  unfold visitImpl
  cases hc : c.paths t0 <;> simp only [hc]
  · exact ⟨fun r hr => hr, fun q hq _ => hq⟩
  · have hne : t0 ≠ t := by
      intro he; rw [he, h] at hc; cases hc
    constructor
    · intro r hr
      rw [addImpl_impls] at hr
      rcases List.mem_append.mp hr with h1 | h2
      · exact h1
      · exfalso
        have := List.mem_singleton.mp h2
        exact hne (congrArg Prod.fst this).symm
    · intro q hq hfor
      rw [addImpl_implementors] at hq
      rcases List.mem_append.mp hq with h1 | h2
      · exact h1
      · exfalso
        cases tr0 with
        | none => simp at h2
        | some trId =>
            simp only [List.mem_singleton] at h2
            rw [h2] at hfor
            exact hne hfor

mutual

theorem crawlDecl_target_none (d : Decl) (c : Cache) (t : DefId)
    (h : (crawlDecl d c).paths t = none) :
    (∀ r, (t, r) ∈ (crawlDecl d c).impls → (t, r) ∈ c.impls) ∧
    (∀ q, q ∈ (crawlDecl d c).implementors → q.2.for_ = t →
      q ∈ c.implementors) := by
  cases d with
  | leaf id name kind desc =>
      rw [crawlDecl_leaf_eq]
      obtain ⟨_, _, hi, hm, _, _, _⟩ := recordItem_fixed c id name kind desc
      exact ⟨fun r hr => hi ▸ hr, fun q hq _ => hm ▸ hq⟩
  | implBlock t0 tr0 =>
      rw [crawlDecl_impl_eq] at h ⊢
      rw [visitImpl_paths] at h
      exact visitImpl_target_none c t0 tr0 t h
  | module id name isPublic children =>
      rw [crawlDecl_module_eq] at h ⊢
      have h' : (crawlList children (moduleEnter c id name isPublic)).paths t = none := h
      obtain ⟨gi, gm⟩ := crawlList_target_none children (moduleEnter c id name isPublic) t h'
      obtain ⟨_, _, hi, hm, _, _, _⟩ := recordItem_fixed c id name ItemType.Module ""
      constructor
      · intro r hr
        have : (t, r) ∈ (moduleEnter c id name isPublic).impls := gi r hr
        exact hi ▸ this
      · intro q hq hfor
        have : q ∈ (moduleEnter c id name isPublic).implementors := gm q hq hfor
        exact hm ▸ this

theorem crawlList_target_none (ds : DeclList) (c : Cache) (t : DefId)
    (h : (crawlList ds c).paths t = none) :
    (∀ r, (t, r) ∈ (crawlList ds c).impls → (t, r) ∈ c.impls) ∧
    (∀ q, q ∈ (crawlList ds c).implementors → q.2.for_ = t →
      q ∈ c.implementors) := by
  cases ds with
  | nil => exact ⟨fun r hr => hr, fun q hq _ => hq⟩
  | cons d rest =>
      rw [crawlList_cons_eq] at h ⊢
      have hmid : (crawlDecl d c).paths t = none := crawlList_paths_none rest _ t h
      obtain ⟨gi, gm⟩ := crawlList_target_none rest (crawlDecl d c) t h
      obtain ⟨fi, fm⟩ := crawlDecl_target_none d c t hmid
      exact ⟨fun r hr => fi r (gi r hr), fun q hq hfor => fm q (gm q hq hfor) hfor⟩

end

/-- The components of the cache that drive the crawl's population of the
path table and implementation index; the private-scope flag and the search
index are deliberately excluded. -/
def CrawlCore (c1 c2 : Cache) : Prop :=
  c1.stack = c2.stack ∧ c1.paths = c2.paths ∧ c1.impls = c2.impls ∧
  c1.implementors = c2.implementors ∧ c1.orphan_methods = c2.orphan_methods

theorem recordItem_core (c1 c2 : Cache) (id : NodeId) (name : String)
    (kind : ItemType) (desc : String) (h : CrawlCore c1 c2) :
    CrawlCore (recordItem c1 id name kind desc)
      (recordItem c2 id name kind desc) := by
  obtain ⟨hs, hp, hi, hm, ho⟩ := h
  unfold recordItem
  have hc1 : c1.paths ⟨LOCAL_CRATE, id⟩ = c2.paths ⟨LOCAL_CRATE, id⟩ := congrFun hp _
  cases hc : c2.paths ⟨LOCAL_CRATE, id⟩ <;> rw [hc] at hc1 <;> simp only [hc, hc1]
  · refine ⟨?_, ?_, ?_, ?_, ?_⟩ <;> (split <;> split) <;>
      simp [hs, hp, hi, hm, ho]
  · exact ⟨hs, hp, hi, hm, ho⟩

theorem visitImpl_core (c1 c2 : Cache) (t : DefId) (tr : Option DefId)
    (h : CrawlCore c1 c2) : CrawlCore (visitImpl c1 t tr) (visitImpl c2 t tr) := by
  obtain ⟨hs, hp, hi, hm, ho⟩ := h
  unfold visitImpl
  have hc1 : c1.paths t = c2.paths t := congrFun hp _
  cases hc : c2.paths t <;> rw [hc] at hc1 <;> simp only [hc, hc1]
  · exact ⟨hs, hp, hi, hm, by simp [ho]⟩
  · cases tr <;> exact ⟨hs, hp, by simp [addImpl, hi], by simp [addImpl, hm, hi], by simp [addImpl, ho]⟩

mutual

theorem crawlDecl_core (d : Decl) (c1 c2 : Cache) (h : CrawlCore c1 c2) :
    CrawlCore (crawlDecl d c1) (crawlDecl d c2) := by
  cases d with
  | leaf id name kind desc =>
      rw [crawlDecl_leaf_eq, crawlDecl_leaf_eq]
      exact recordItem_core c1 c2 id name kind desc h
  | implBlock t tr =>
      rw [crawlDecl_impl_eq, crawlDecl_impl_eq]
      exact visitImpl_core c1 c2 t tr h
  | module id name isPublic children =>
      rw [crawlDecl_module_eq, crawlDecl_module_eq]
      have hrec := recordItem_core c1 c2 id name ItemType.Module "" h
      obtain ⟨rs, rp, ri, rm, ro⟩ := hrec
      have henter : CrawlCore (moduleEnter c1 id name isPublic)
          (moduleEnter c2 id name isPublic) := by
        refine ⟨?_, rp, ri, rm, ro⟩
        show (recordItem c1 id name ItemType.Module "").stack ++ [name] =
          (recordItem c2 id name ItemType.Module "").stack ++ [name]
        rw [rs]
      obtain ⟨gs, gp, gi, gm, go⟩ :=
        crawlList_core children (moduleEnter c1 id name isPublic)
          (moduleEnter c2 id name isPublic) henter
      exact ⟨rs, gp, gi, gm, go⟩

theorem crawlList_core (ds : DeclList) (c1 c2 : Cache) (h : CrawlCore c1 c2) :
    CrawlCore (crawlList ds c1) (crawlList ds c2) := by
  cases ds with
  | nil => exact h
  | cons d rest =>
      rw [crawlList_cons_eq, crawlList_cons_eq]
      exact crawlList_core rest (crawlDecl d c1) (crawlDecl d c2)
        (crawlDecl_core d c1 c2 h)

end

/-- Statement that the implementor index is exactly the trait-keyed
inverse view of the implementation index. -/
def InvOK (c : Cache) : Prop :=
  c.implementors = implementorsFromImpls c.impls

theorem addImpl_inv (c : Cache) (t : DefId) (tr : Option DefId) (h : InvOK c) :
    InvOK (addImpl c t tr) := by
  unfold InvOK at h ⊢
  rw [addImpl_impls, addImpl_implementors, h]
  unfold implementorsFromImpls
  rw [List.filterMap_append]
  cases tr <;> simp [mkImplRecord]

theorem visitImpl_inv (c : Cache) (t : DefId) (tr : Option DefId) (h : InvOK c) :
    InvOK (visitImpl c t tr) := by
  unfold visitImpl
  cases hc : c.paths t <;> simp only [hc]
  · exact h
  · exact addImpl_inv c t tr h

theorem recordItem_inv (c : Cache) (id : NodeId) (name : String)
    (kind : ItemType) (desc : String) (h : InvOK c) :
    InvOK (recordItem c id name kind desc) := by
  unfold InvOK at h ⊢
  obtain ⟨_, _, hi, hm, _, _, _⟩ := recordItem_fixed c id name kind desc
  rw [hi, hm, h]

mutual

theorem crawlDecl_inv (d : Decl) (c : Cache) (h : InvOK c) :
    InvOK (crawlDecl d c) := by
  cases d with
  | leaf id name kind desc =>
      rw [crawlDecl_leaf_eq]
      exact recordItem_inv c id name kind desc h
  | implBlock t tr =>
      rw [crawlDecl_impl_eq]
      exact visitImpl_inv c t tr h
  | module id name isPublic children =>
      rw [crawlDecl_module_eq]
      have h1 : InvOK (moduleEnter c id name isPublic) := by
        unfold InvOK
        show (recordItem c id name ItemType.Module "").implementors =
          implementorsFromImpls (recordItem c id name ItemType.Module "").impls
        exact recordItem_inv c id name ItemType.Module "" h
      have h2 := crawlList_inv children (moduleEnter c id name isPublic) h1
      unfold InvOK at h2 ⊢
      exact h2

theorem crawlList_inv (ds : DeclList) (c : Cache) (h : InvOK c) :
    InvOK (crawlList ds c) := by
  cases ds with
  | nil => exact h
  | cons d rest =>
      rw [crawlList_cons_eq]
      exact crawlList_inv rest (crawlDecl d c) (crawlDecl_inv d c h)

end

theorem find_append_orElse {α : Type} (l1 l2 : List α) (p : α → Bool) :
    (l1 ++ l2).find? p = ((l1.find? p).orElse (fun _ => l2.find? p)) := by
  induction l1 with
  | nil => simp [List.find?]
  | cons a rest ih =>
      cases hpa : p a <;> simp [List.find?, hpa, ih]

theorem addImpl_mem_back (c : Cache) (t0 : DefId) (tr0 : Option DefId)
    (t : DefId) (hne : t0 ≠ t) :
    (∀ r, (t, r) ∈ (addImpl c t0 tr0).impls → (t, r) ∈ c.impls) ∧
    (∀ q, q ∈ (addImpl c t0 tr0).implementors → q.2.for_ = t →
      q ∈ c.implementors) := by
  constructor
  · intro r hr
    rw [addImpl_impls] at hr
    rcases List.mem_append.mp hr with h1 | h2
    · exact h1
    · exact absurd (congrArg Prod.fst (List.mem_singleton.mp h2)).symm hne
  · intro q hq hfor
    rw [addImpl_implementors] at hq
    rcases List.mem_append.mp hq with h1 | h2
    · exact h1
    · exfalso
      cases tr0 with
      | none => simp at h2
      | some trId =>
          simp only [List.mem_singleton] at h2
          rw [h2] at hfor
          exact hne hfor

/-! Lemmas about the orphan flush. -/

theorem flushList_paths (l : List (DefId × Option DefId)) (c : Cache) :
    (flushList l c).paths = c.paths := by
  induction l generalizing c with
  | nil => rfl
  | cons p rest ih =>
      obtain ⟨t, tr⟩ := p
      unfold flushList
      cases hc : c.paths t <;> simp only [hc]
      · exact ih c
      · rw [ih (addImpl c t tr)]; exact addImpl_paths c t tr

theorem flushList_fixed (l : List (DefId × Option DefId)) (c : Cache) :
    (flushList l c).search_index = c.search_index ∧
    (flushList l c).primitive_locations = c.primitive_locations ∧
    (flushList l c).extern_locations = c.extern_locations := by
  induction l generalizing c with
  | nil => exact ⟨rfl, rfl, rfl⟩
  | cons p rest ih =>
      obtain ⟨t, tr⟩ := p
      unfold flushList
      cases hc : c.paths t <;> simp only [hc]
      · exact ih c
      · obtain ⟨g1, g2, g3⟩ := ih (addImpl c t tr)
        obtain ⟨_, _, a3, _, a5, a6⟩ := addImpl_fixed c t tr
        exact ⟨g1.trans a3, g2.trans a5, g3.trans a6⟩

theorem flushList_impls_mono (l : List (DefId × Option DefId)) (c : Cache)
    (p : DefId × ImplRecord) (h : p ∈ c.impls) : p ∈ (flushList l c).impls := by
  induction l generalizing c with
  | nil => exact h
  | cons q rest ih =>
      obtain ⟨t, tr⟩ := q
      unfold flushList
      cases hc : c.paths t <;> simp only [hc]
      · exact ih c h
      · exact ih (addImpl c t tr) (by rw [addImpl_impls]; exact List.mem_append_left _ h)

theorem flushList_resolve (l : List (DefId × Option DefId)) (c : Cache)
    (t : DefId) (tr : Option DefId) (hm : (t, tr) ∈ l)
    (hp : (c.paths t).isSome = true) :
    (t, mkImplRecord tr t) ∈ (flushList l c).impls := by
  induction l generalizing c with
  | nil => cases hm
  | cons q rest ih =>
      obtain ⟨t0, tr0⟩ := q
      unfold flushList
      rcases List.mem_cons.mp hm with he | hrest
      · injection he with h1 h2
        subst h1; subst h2
        cases hc : c.paths t <;> simp only [hc]
        · rw [hc] at hp; cases hp
        · exact flushList_impls_mono rest (addImpl c t tr) _
            (by rw [addImpl_impls]; exact List.mem_append_right _ (List.mem_singleton.mpr rfl))
      · cases hc : c.paths t0 <;> simp only [hc]
        · exact ih c hrest hp
        · exact ih (addImpl c t0 tr0) hrest (by rw [addImpl_paths]; exact hp)

theorem flushList_target_none (l : List (DefId × Option DefId)) (c : Cache)
    (t : DefId) (h : c.paths t = none) :
    (∀ r, (t, r) ∈ (flushList l c).impls → (t, r) ∈ c.impls) ∧
    (∀ q, q ∈ (flushList l c).implementors → q.2.for_ = t →
      q ∈ c.implementors) := by
  induction l generalizing c with
  | nil => exact ⟨fun r hr => hr, fun q hq _ => hq⟩
  | cons q rest ih =>
      obtain ⟨t0, tr0⟩ := q
      unfold flushList
      cases hc : c.paths t0 <;> simp only [hc]
      · exact ih c h
      · have hne : t0 ≠ t := by
          intro he; rw [he, h] at hc; cases hc
        have h' : (addImpl c t0 tr0).paths t = none := by
          rw [addImpl_paths]; exact h
        obtain ⟨gi, gm⟩ := ih (addImpl c t0 tr0) h'
        obtain ⟨fi, fm⟩ := addImpl_mem_back c t0 tr0 t hne
        exact ⟨fun r hr => fi r (gi r hr), fun q hq hfor => fm q (gm q hq hfor) hfor⟩

theorem flushList_inv (l : List (DefId × Option DefId)) (c : Cache)
    (h : InvOK c) : InvOK (flushList l c) := by
  induction l generalizing c with
  | nil => exact h
  | cons q rest ih =>
      obtain ⟨t0, tr0⟩ := q
      unfold flushList
      cases hc : c.paths t0 <;> simp only [hc]
      · exact ih c h
      · exact ih (addImpl c t0 tr0) (addImpl_inv c t0 tr0 h)

/-! Lemmas about the extern-location loop. -/

theorem externLoop_fixed (l : List (CrateNum × ExternalCrate))
    (loc : ExternalCrate → ExternalLocation) (c : Cache) :
    (externLoop l loc c).impls = c.impls ∧
    (externLoop l loc c).implementors = c.implementors ∧
    (externLoop l loc c).orphan_methods = c.orphan_methods ∧
    (externLoop l loc c).search_index = c.search_index ∧
    (externLoop l loc c).primitive_locations = c.primitive_locations := by
  induction l generalizing c with
  | nil => exact ⟨rfl, rfl, rfl, rfl, rfl⟩
  | cons p rest ih =>
      obtain ⟨n, e⟩ := p
      exact ih _

theorem externLoop_paths_other (l : List (CrateNum × ExternalCrate))
    (loc : ExternalCrate → ExternalLocation) (c : Cache) (did : DefId)
    (hr : ∀ p ∈ l, did ≠ ⟨p.1, CRATE_NODE_ID⟩) :
    (externLoop l loc c).paths did = c.paths did := by
  induction l generalizing c with
  | nil => rfl
  | cons p rest ih =>
      obtain ⟨n, e⟩ := p
      unfold externLoop
      rw [ih _ (fun q hq => hr q (List.mem_cons_of_mem _ hq))]
      have hd : did ≠ (⟨n, CRATE_NODE_ID⟩ : DefId) := hr (n, e) (List.mem_cons_self _ _)
      simp [Map.insert, hd]

theorem externLoop_paths_isSome (l : List (CrateNum × ExternalCrate))
    (loc : ExternalCrate → ExternalLocation) (c : Cache) (did : DefId)
    (h : (c.paths did).isSome = true) :
    ((externLoop l loc c).paths did).isSome = true := by
  induction l generalizing c with
  | nil => exact h
  | cons p rest ih =>
      obtain ⟨n, e⟩ := p
      unfold externLoop
      apply ih
      by_cases hd : did = (⟨n, CRATE_NODE_ID⟩ : DefId) <;> simp [Map.insert, hd, h]

theorem externLoop_extern_other (l : List (CrateNum × ExternalCrate))
    (loc : ExternalCrate → ExternalLocation) (c : Cache) (n : CrateNum)
    (hr : ∀ p ∈ l, n ≠ p.1) :
    (externLoop l loc c).extern_locations n = c.extern_locations n := by
  induction l generalizing c with
  | nil => rfl
  | cons p rest ih =>
      obtain ⟨n0, e0⟩ := p
      unfold externLoop
      rw [ih _ (fun q hq => hr q (List.mem_cons_of_mem _ hq))]
      have hd : n ≠ n0 := hr (n0, e0) (List.mem_cons_self _ _)
      simp [Map.insert, hd]

theorem externLoop_mem (l : List (CrateNum × ExternalCrate))
    (loc : ExternalCrate → ExternalLocation) (c : Cache) (n : CrateNum)
    (e : ExternalCrate) (hm : (n, e) ∈ l) (hnd : (l.map Prod.fst).Nodup) :
    (externLoop l loc c).extern_locations n = some (loc e) ∧
    (externLoop l loc c).paths ⟨n, CRATE_NODE_ID⟩ =
      some ([e.name], ItemType.Module) := by
  induction l generalizing c with
  | nil => cases hm
  | cons p rest ih =>
      obtain ⟨n0, e0⟩ := p
      rw [List.map_cons, List.nodup_cons] at hnd
      obtain ⟨hnot, hnd'⟩ := hnd
      rcases List.mem_cons.mp hm with he | hrest
      · injection he with h1 h2
        subst h1; subst h2
        unfold externLoop
        have hr : ∀ q ∈ rest, n ≠ q.1 := by
          intro q hq he'
          apply hnot
          rw [he']
          exact List.mem_map.mpr ⟨q, hq, rfl⟩
        constructor
        · rw [externLoop_extern_other rest loc _ n hr]
          simp [Map.insert]
        · have hr' : ∀ q ∈ rest, (⟨n, CRATE_NODE_ID⟩ : DefId) ≠ ⟨q.1, CRATE_NODE_ID⟩ := by
            intro q hq he'
            exact hr q hq (congrArg DefId.krate he')
          rw [externLoop_paths_other rest loc _ _ hr']
          simp [Map.insert]
      · unfold externLoop
        exact ih _ hrest hnd'

/-! Lemmas about the primitive-location loops. -/

theorem insertPrims_fixed (prims : List Nat) (n : CrateNum) (c : Cache) :
    (insertPrims c prims n).paths = c.paths ∧
    (insertPrims c prims n).impls = c.impls ∧
    (insertPrims c prims n).implementors = c.implementors ∧
    (insertPrims c prims n).orphan_methods = c.orphan_methods ∧
    (insertPrims c prims n).search_index = c.search_index ∧
    (insertPrims c prims n).extern_locations = c.extern_locations := by
  induction prims generalizing c with
  | nil => exact ⟨rfl, rfl, rfl, rfl, rfl, rfl⟩
  | cons q rest ih => exact ih _

theorem insertPrims_lookup (prims : List Nat) (n : CrateNum) (c : Cache)
    (p : Nat) :
    (insertPrims c prims n).primitive_locations p =
      if p ∈ prims then some n else c.primitive_locations p := by
  induction prims generalizing c with
  | nil => simp [insertPrims]
  | cons q rest ih =>
      unfold insertPrims
      rw [ih]
      by_cases hq : p = q <;> by_cases hr : p ∈ rest <;>
        simp [Map.insert, hq, hr, List.mem_cons]

theorem primExternLoop_fixed (l : List (CrateNum × ExternalCrate)) (c : Cache) :
    (primExternLoop l c).paths = c.paths ∧
    (primExternLoop l c).impls = c.impls ∧
    (primExternLoop l c).implementors = c.implementors ∧
    (primExternLoop l c).orphan_methods = c.orphan_methods ∧
    (primExternLoop l c).search_index = c.search_index ∧
    (primExternLoop l c).extern_locations = c.extern_locations := by
  induction l generalizing c with
  | nil => exact ⟨rfl, rfl, rfl, rfl, rfl, rfl⟩
  | cons q rest ih =>
      obtain ⟨n, e⟩ := q
      unfold primExternLoop
      obtain ⟨g1, g2, g3, g4, g5, g6⟩ := ih (insertPrims c e.primitives n)
      obtain ⟨f1, f2, f3, f4, f5, f6⟩ := insertPrims_fixed e.primitives n c
      exact ⟨g1.trans f1, g2.trans f2, g3.trans f3, g4.trans f4,
             g5.trans f5, g6.trans f6⟩

theorem primExternLoop_lookup (l : List (CrateNum × ExternalCrate)) (c : Cache)
    (p : Nat) :
    (primExternLoop l c).primitive_locations p =
      match l.reverse.find? (fun pr => decide (p ∈ pr.2.primitives)) with
      | some pr => some pr.1
      | none => c.primitive_locations p := by
  induction l generalizing c with
  | nil => simp [primExternLoop]
  | cons q rest ih =>
      obtain ⟨n, e⟩ := q
      unfold primExternLoop
      rw [ih]
      rw [List.reverse_cons, find_append_orElse]
      cases hf : rest.reverse.find? (fun pr => decide (p ∈ pr.2.primitives)) with
      | some pr => simp [Option.orElse]
      | none =>
          simp only [Option.orElse, Option.none_orElse]
          rw [insertPrims_lookup]
          by_cases hp : p ∈ e.primitives <;> simp [List.find?, hp]

theorem primLocalLoop_lookup (prims : List Nat) (c : Cache) (p : Nat) :
    (primLocalLoop prims c).primitive_locations p =
      if p ∈ prims then some LOCAL_CRATE else c.primitive_locations p :=
  insertPrims_lookup prims LOCAL_CRATE c p

theorem primLocalLoop_fixed (prims : List Nat) (c : Cache) :
    (primLocalLoop prims c).paths = c.paths ∧
    (primLocalLoop prims c).impls = c.impls ∧
    (primLocalLoop prims c).implementors = c.implementors ∧
    (primLocalLoop prims c).orphan_methods = c.orphan_methods ∧
    (primLocalLoop prims c).search_index = c.search_index ∧
    (primLocalLoop prims c).extern_locations = c.extern_locations :=
  insertPrims_fixed prims LOCAL_CRATE c

theorem initialCache_base (a : Option Analysis) (c0 : Cache)
    (h : initialCache a = some c0) :
    c0.impls = [] ∧ c0.implementors = [] ∧ c0.stack = [] ∧
    c0.orphan_methods = [] ∧ c0.search_index = [] ∧
    c0.primitive_locations = Map.empty ∧ c0.extern_locations = Map.empty ∧
    c0.privmod = false := by
  cases a with
  | none =>
      injection h with h'
      subst h'
      exact ⟨rfl, rfl, rfl, rfl, rfl, rfl, rfl, rfl⟩
  | some a =>
      simp only [initialCache] at h
      cases hp : a.external_paths <;> rw [hp] at h
      · cases h
      · cases ht : a.external_traits <;> rw [ht] at h
        · cases h
        · cases hy : a.external_typarams <;> rw [hy] at h
          · cases h
          · cases hi : a.inlined <;> rw [hi] at h
            · cases h
            · injection h with h'
              subst h'
              exact ⟨rfl, rfl, rfl, rfl, rfl, rfl, rfl, rfl⟩

/-! Pipeline-level glue lemmas. -/

theorem buildFrom_fst (k : Krate) (loc : ExternalCrate → ExternalLocation)
    (c0 : Cache) :
    (buildFrom k loc c0).1 =
      flushOrphans (primStage k (externStage k loc (afterCrawl k c0))) := rfl

theorem flushOrphans_paths (c : Cache) : (flushOrphans c).paths = c.paths :=
  flushList_paths c.orphan_methods c

theorem flushOrphans_prim (c : Cache) :
    (flushOrphans c).primitive_locations = c.primitive_locations :=
  (flushList_fixed c.orphan_methods c).2.1

theorem flushOrphans_externLocations (c : Cache) :
    (flushOrphans c).extern_locations = c.extern_locations :=
  (flushList_fixed c.orphan_methods c).2.2

theorem primStage_paths (k : Krate) (c : Cache) :
    (primStage k c).paths = c.paths := by
  unfold primStage
  rw [(primLocalLoop_fixed k.primitives _).1,
      (primExternLoop_fixed k.externs.reverse c).1]

theorem primStage_impls (k : Krate) (c : Cache) :
    (primStage k c).impls = c.impls := by
  unfold primStage
  rw [(primLocalLoop_fixed k.primitives _).2.1,
      (primExternLoop_fixed k.externs.reverse c).2.1]

theorem primStage_implementors (k : Krate) (c : Cache) :
    (primStage k c).implementors = c.implementors := by
  unfold primStage
  rw [(primLocalLoop_fixed k.primitives _).2.2.1,
      (primExternLoop_fixed k.externs.reverse c).2.2.1]

theorem primStage_orphans (k : Krate) (c : Cache) :
    (primStage k c).orphan_methods = c.orphan_methods := by
  unfold primStage
  rw [(primLocalLoop_fixed k.primitives _).2.2.2.1,
      (primExternLoop_fixed k.externs.reverse c).2.2.2.1]

theorem primStage_externLocations (k : Krate) (c : Cache) :
    (primStage k c).extern_locations = c.extern_locations := by
  unfold primStage
  rw [(primLocalLoop_fixed k.primitives _).2.2.2.2.2,
      (primExternLoop_fixed k.externs.reverse c).2.2.2.2.2]

theorem afterCrawl_prim (k : Krate) (c0 : Cache) :
    (afterCrawl k c0).primitive_locations = c0.primitive_locations := by
  unfold afterCrawl crawlStage
  cases k.module with
  | none => rfl
  | some m => exact (crawlDecl_fixed m (pushCrateName k c0)).1

theorem renderBuild_some (k : Krate) (a : Option Analysis)
    (loc : ExternalCrate → ExternalLocation) (c : Cache) (idx : List IndexItem)
    (hb : renderBuild k a loc = some (c, idx)) :
    ∃ c0, initialCache a = some c0 ∧ c = (buildFrom k loc c0).1 ∧
      idx = (buildFrom k loc c0).2 := by
  cases h0 : initialCache a with
  | none => unfold renderBuild at hb; rw [h0] at hb; cases hb
  | some c0 =>
      unfold renderBuild at hb
      rw [h0] at hb
      injection hb with hb'
      exact ⟨c0, rfl, by rw [hb'], by rw [hb']⟩

/-- C1: in the primitive-location resolution of `render`, a primitive
defined by the local crate always resolves to `LOCAL_CRATE`, regardless of
any external definitions; a primitive defined only by external crates
resolves to the extern processed last during the reverse iteration of the
externs list, which is the first extern in list order that defines it.
The right-hand side's `find?` captures both tie-breaks at once. -/
theorem C1_primitive_location_tiebreak (k : Krate) (a : Option Analysis)
    (loc : ExternalCrate → ExternalLocation) (c : Cache) (idx : List IndexItem)
    (p : Nat) (hb : renderBuild k a loc = some (c, idx)) :
    c.primitive_locations p =
      if p ∈ k.primitives then some LOCAL_CRATE
      else (k.externs.find? (fun pr => decide (p ∈ pr.2.primitives))).map
        Prod.fst := by
  obtain ⟨c0, h0, hc, -⟩ := renderBuild_some k a loc c idx hb
  subst hc
  rw [buildFrom_fst]
  rw [show (flushOrphans (primStage k (externStage k loc (afterCrawl k c0)))).primitive_locations = (primStage k (externStage k loc (afterCrawl k c0))).primitive_locations from flushOrphans_prim _]
  unfold primStage
  rw [primLocalLoop_lookup, primExternLoop_lookup, List.reverse_reverse]
  have hbase : (externStage k loc (afterCrawl k c0)).primitive_locations p = none := by
    unfold externStage
    rw [(externLoop_fixed k.externs loc (afterCrawl k c0)).2.2.2.2]
    rw [afterCrawl_prim]
    rw [(initialCache_base a c0 h0).2.2.2.2.2.1]
    rfl
  by_cases hp : p ∈ k.primitives
  · simp [hp]
  · simp only [hp, if_neg, if_false]
    cases hf : k.externs.find? (fun pr => decide (p ∈ pr.2.primitives)) with
    | some pr => simp
    | none => simp [hbase]

/-- C4: when the optional analysis data is absent, `render` constructs
the cache with empty defaults for every analysis-derived structure (empty
public-item set, empty path tables, empty traits/typarams maps, empty
inlined set) and the whole build still produces a result. -/
theorem C4_missing_analysis_defaults (k : Krate)
    (loc : ExternalCrate → ExternalLocation) (did : DefId) (nid : NodeId)
    (p : Nat) (cn : CrateNum) :
    (initialCache none).isSome = true ∧
    ((initialCache none).map (fun c0 =>
      (c0.paths did, c0.external_paths did, c0.traits did, c0.typarams did,
       c0.inlined did, c0.public_items nid, c0.impls, c0.implementors,
       c0.search_index, c0.orphan_methods, c0.extern_locations cn,
       c0.primitive_locations p))) =
      some (none, none, none, none, false, false, [], [], [], [], none, none) ∧
    (renderBuild k none loc).isSome = true :=
  ⟨rfl, rfl, rfl⟩

/-- C5: the build is deterministic — two executions of `renderBuild` on
the same crate, analysis data and location resolver yield the same search
index item sequence and the same path table. -/
theorem C5_deterministic_build (k : Krate) (a : Option Analysis)
    (loc : ExternalCrate → ExternalLocation) (c1 : Cache) (i1 : List IndexItem)
    (c2 : Cache) (i2 : List IndexItem)
    (h1 : renderBuild k a loc = some (c1, i1))
    (h2 : renderBuild k a loc = some (c2, i2)) :
    i1 = i2 ∧ c1.paths = c2.paths := by
  rw [h1] at h2
  injection h2 with h'
  injection h' with hc hi
  exact ⟨hi, by rw [hc]⟩

/-- C7: in the finished build the implementor index is exactly the
trait-keyed inverse of the implementation records whose implemented-trait
field is present: the `implementors` list equals the `filterMap` that
keeps precisely the trait-carrying records, so the correspondence is
one-to-one in both directions with no orphan entries. -/
theorem C7_implementor_index_inverse (k : Krate) (a : Option Analysis)
    (loc : ExternalCrate → ExternalLocation) (c : Cache) (idx : List IndexItem)
    (hb : renderBuild k a loc = some (c, idx)) :
    c.implementors = implementorsFromImpls c.impls := by
  obtain ⟨c0, h0, hc, -⟩ := renderBuild_some k a loc c idx hb
  subst hc
  rw [buildFrom_fst]
  have base : InvOK c0 := by
    obtain ⟨hi, hm, _, _, _, _, _, _⟩ := initialCache_base a c0 h0
    unfold InvOK
    rw [hi, hm]
    rfl
  have h1 : InvOK (afterCrawl k c0) := by
    unfold afterCrawl crawlStage
    cases k.module with
    | none => exact base
    | some m => exact crawlDecl_inv m (pushCrateName k c0) base
  have h2 : InvOK (externStage k loc (afterCrawl k c0)) := by
    unfold InvOK at h1 ⊢
    unfold externStage
    obtain ⟨g1, g2, _, _, _⟩ := externLoop_fixed k.externs loc (afterCrawl k c0)
    rw [g1, g2]
    exact h1
  have h3 : InvOK (primStage k (externStage k loc (afterCrawl k c0))) := by
    unfold InvOK at h2 ⊢
    rw [primStage_impls, primStage_implementors]
    exact h2
  exact flushList_inv _ _ h3

/-- C9: for every extern `(n, e)` (with pairwise distinct crate numbers),
`render` records its external location and inserts a crate-root path
entry keyed by `{krate: n, node: CRATE_NODE_ID}` with qualified name
`[e.name]` and kind `Module`, and both survive to the finished cache. -/
theorem C9_extern_crate_roots (k : Krate) (a : Option Analysis)
    (loc : ExternalCrate → ExternalLocation) (c : Cache) (idx : List IndexItem)
    (n : CrateNum) (e : ExternalCrate)
    (hb : renderBuild k a loc = some (c, idx))
    (hmem : (n, e) ∈ k.externs)
    (hnodup : (k.externs.map Prod.fst).Nodup) :
    c.extern_locations n = some (loc e) ∧
    c.paths ⟨n, CRATE_NODE_ID⟩ = some ([e.name], ItemType.Module) := by
  obtain ⟨c0, h0, hc, -⟩ := renderBuild_some k a loc c idx hb
  subst hc
  rw [buildFrom_fst]
  obtain ⟨hel, hpa⟩ :=
    externLoop_mem k.externs loc (afterCrawl k c0) n e hmem hnodup
  constructor
  · rw [show (flushOrphans (primStage k (externStage k loc (afterCrawl k c0)))).extern_locations = (primStage k (externStage k loc (afterCrawl k c0))).extern_locations from flushOrphans_externLocations _]
    rw [primStage_externLocations]
    exact hel
  · rw [show (flushOrphans (primStage k (externStage k loc (afterCrawl k c0)))).paths = (primStage k (externStage k loc (afterCrawl k c0))).paths from flushOrphans_paths _]
    rw [primStage_paths]
    exact hpa

/-- C10: `render` pushes the crate's own name onto the empty name-segment
stack before the crawl, so the stack is `[k.name]` when the crawl starts,
and every path entry the crawl itself records (absent before the crawl)
has the crate name as its first segment. -/
theorem C10_crate_name_first_segment (k : Krate) (a : Option Analysis)
    (c0 : Cache) (did : DefId) (v : List String × ItemType)
    (h0 : initialCache a = some c0)
    (hnew : (afterCrawl k c0).paths did = some v)
    (hold : c0.paths did = none) :
    (pushCrateName k c0).stack = [k.name] ∧ v.1.head? = some k.name := by
  have hstack0 : c0.stack = [] := (initialCache_base a c0 h0).2.2.1
  have hpush : (pushCrateName k c0).stack = [k.name] := by
    show c0.stack ++ [k.name] = [k.name]
    rw [hstack0]
    rfl
  refine ⟨hpush, ?_⟩
  unfold afterCrawl crawlStage at hnew
  cases hm : k.module with
  | none =>
      rw [hm] at hnew
      have hc : c0.paths did = some v := hnew
      rw [hold] at hc
      cases hc
  | some m =>
      rw [hm] at hnew
      have hhead : (pushCrateName k c0).stack.head? = some k.name := by
        rw [hpush]
        rfl
      rcases crawlDecl_paths_head m (pushCrateName k c0) k.name hhead did v hnew
        with h1 | h2
      · have hc : c0.paths did = some v := h1
        rw [hold] at hc
        cases hc
      · exact h2

/-- C8: a declaration visited while the private-scope flag is set produces
no search index item, yet the path table and the implementation index are
populated exactly as they would be with the flag clear. -/
theorem C8_private_scope_suppression (d : Decl) (c : Cache)
    (h : c.privmod = true) :
    (crawlDecl d c).search_index = c.search_index ∧
    (crawlDecl d c).paths = (crawlDecl d { c with privmod := false }).paths ∧
    (crawlDecl d c).impls = (crawlDecl d { c with privmod := false }).impls := by
  have hcore : CrawlCore c { c with privmod := false } := ⟨rfl, rfl, rfl, rfl, rfl⟩
  obtain ⟨_, hp, hi, _, _⟩ := crawlDecl_core d c { c with privmod := false } hcore
  exact ⟨crawlDecl_search_priv d c h, hp, hi⟩

/-- Concrete analysis data used to refute C2: the analysis-provided path
table already contains an entry for the crate-root identity of extern
crate number 1. -/
def c2Analysis : Analysis :=
  { public_items := fun _ => false,
    external_paths :=
      some (Map.insert Map.empty ⟨1, CRATE_NODE_ID⟩
        (["foo", "bar"], TypeKind.TypeStruct)),
    external_traits := some Map.empty,
    external_typarams := some Map.empty,
    inlined := some (fun _ => false) }

/-- Concrete crate used to refute C2: one extern crate with number 1. -/
def c2Krate : Krate :=
  { name := "local", module := none,
    externs := [(1, { name := "ext", primitives := [] })], primitives := [] }

/-- Location resolver used in the C2 scenario. -/
def c2Loc : ExternalCrate → ExternalLocation := fun _ => ExternalLocation.Local

/-- The crate-root symbol identity of extern crate 1. -/
def c2Did : DefId := ⟨1, CRATE_NODE_ID⟩

/-- C2 counterexample: the path entry for `c2Did` recorded when the cache
is constructed from the analysis data is later replaced by the extern
crate-root insertion of `render` — the first writer does not win. -/
theorem C2_counterexample :
    ((initialCache (some c2Analysis)).map (fun c0 => c0.paths c2Did) =
      some (some (["foo", "bar"], ItemType.Struct))) ∧
    ((renderBuild c2Krate (some c2Analysis) c2Loc).map
      (fun r => r.1.paths c2Did) =
      some (some (["ext"], ItemType.Module))) ∧
    (["foo", "bar"], ItemType.Struct) ≠ (["ext"], ItemType.Module) := by
  refine ⟨rfl, rfl, ?_⟩
  decide

/-- C2 (amended): a path entry present when the crawl has completed is
never replaced by any later build step, *except* at the crate-root
identities `{krate: n, node: CRATE_NODE_ID}` of the externs, which
`render` overwrites unconditionally; and the crawl itself never replaces
an entry that was already present (first writer wins during the crawl). -/
theorem C2_amended_first_writer (k : Krate) (a : Option Analysis)
    (loc : ExternalCrate → ExternalLocation) (c : Cache) (idx : List IndexItem)
    (c0 : Cache) (did : DefId) (v : List String × ItemType)
    (h0 : initialCache a = some c0)
    (hb : renderBuild k a loc = some (c, idx))
    (hroot : ∀ p ∈ k.externs, did ≠ ⟨p.1, CRATE_NODE_ID⟩)
    (hrec : (afterCrawl k c0).paths did = some v) :
    (∀ w, c0.paths did = some w → (afterCrawl k c0).paths did = some w) ∧
    c.paths did = some v := by
  obtain ⟨c0', h0', hc, -⟩ := renderBuild_some k a loc c idx hb
  rw [h0] at h0'
  injection h0' with he
  subst he
  subst hc
  constructor
  · intro w hw
    unfold afterCrawl crawlStage
    cases k.module with
    | none => exact hw
    | some m =>
        apply crawlDecl_paths_mono
        exact hw
  · rw [buildFrom_fst]
    rw [show (flushOrphans (primStage k (externStage k loc (afterCrawl k c0)))).paths = (primStage k (externStage k loc (afterCrawl k c0))).paths from flushOrphans_paths _]
    rw [primStage_paths]
    unfold externStage
    rw [externLoop_paths_other k.externs loc _ did hroot]
    exact hrec

theorem flushOrphans_impls (c : Cache) :
    (flushOrphans c).impls = (flushList c.orphan_methods c).impls := rfl

theorem flushOrphans_implementors (c : Cache) :
    (flushOrphans c).implementors =
      (flushList c.orphan_methods c).implementors := rfl

/-- C6: every implementation block in the tree is either merged into the
implementation index at visit time or queued in the orphan queue (the
forward-reference case); after the single post-crawl flush it appears in
the final implementation index whenever its target's path entry exists;
and when the target has no path entry in the finished build, the block is
absent from both the implementation index and the implementor index while
the build still completes (witnessed by `hb`). -/
theorem C6_orphan_queue_flush (k : Krate) (a : Option Analysis)
    (loc : ExternalCrate → ExternalLocation) (c : Cache) (idx : List IndexItem)
    (c0 : Cache) (t : DefId) (tr : Option DefId)
    (h0 : initialCache a = some c0)
    (hb : renderBuild k a loc = some (c, idx))
    (himpl : krateHasImpl k t tr = true) :
    ((t, mkImplRecord tr t) ∈ (afterCrawl k c0).impls ∨
      (t, tr) ∈ (afterCrawl k c0).orphan_methods) ∧
    ((c.paths t).isSome = true → (t, mkImplRecord tr t) ∈ c.impls) ∧
    (c.paths t = none → (∀ r, (t, r) ∉ c.impls) ∧
      (∀ q ∈ c.implementors, q.2.for_ ≠ t)) := by
  obtain ⟨c0', h0', hc, -⟩ := renderBuild_some k a loc c idx hb
  rw [h0] at h0'
  injection h0' with he
  subst he
  subst hc
  have step1 : (t, mkImplRecord tr t) ∈ (afterCrawl k c0).impls ∨
      (t, tr) ∈ (afterCrawl k c0).orphan_methods := by
    unfold krateHasImpl at himpl
    unfold afterCrawl crawlStage
    cases hm : k.module with
    | none => rw [hm] at himpl; cases himpl
    | some m =>
        rw [hm] at himpl
        exact crawlDecl_hasImpl m (pushCrateName k c0) t tr himpl
  refine ⟨step1, ?_, ?_⟩
  · intro hp
    rw [buildFrom_fst] at hp ⊢
    rw [flushOrphans_paths, primStage_paths] at hp
    rw [flushOrphans_impls]
    rcases step1 with hIn | hQ
    · apply flushList_impls_mono
      rw [primStage_impls]
      unfold externStage
      rw [(externLoop_fixed k.externs loc (afterCrawl k c0)).1]
      exact hIn
    · apply flushList_resolve
      · rw [primStage_orphans]
        unfold externStage
        rw [(externLoop_fixed k.externs loc (afterCrawl k c0)).2.2.1]
        exact hQ
      · rw [primStage_paths]
        exact hp
  · intro hn
    rw [buildFrom_fst] at hn ⊢
    rw [flushOrphans_paths] at hn
    have hnE : (externStage k loc (afterCrawl k c0)).paths t = none := by
      rw [primStage_paths] at hn
      exact hn
    have hnC : (afterCrawl k c0).paths t = none := by
      cases hv : (afterCrawl k c0).paths t with
      | none => rfl
      | some w =>
          exfalso
          have hS := externLoop_paths_isSome k.externs loc (afterCrawl k c0) t
            (by rw [hv]; rfl)
          have hnE' : (externLoop k.externs loc (afterCrawl k c0)).paths t = none := hnE
          rw [hnE'] at hS
          cases hS
    obtain ⟨fi, fm⟩ := flushList_target_none
      (primStage k (externStage k loc (afterCrawl k c0))).orphan_methods
      (primStage k (externStage k loc (afterCrawl k c0))) t hn
    constructor
    · intro r hr
      have h1 : (t, r) ∈
          (primStage k (externStage k loc (afterCrawl k c0))).impls := fi r hr
      rw [primStage_impls] at h1
      have h2 : (t, r) ∈ (afterCrawl k c0).impls := by
        unfold externStage at h1
        rw [(externLoop_fixed k.externs loc (afterCrawl k c0)).1] at h1
        exact h1
      have h3 : (t, r) ∈ c0.impls := by
        unfold afterCrawl crawlStage at h2 hnC
        cases hm : k.module with
        | none => rw [hm] at h2; exact h2
        | some m =>
            rw [hm] at h2 hnC
            exact (crawlDecl_target_none m (pushCrateName k c0) t hnC).1 r h2
      rw [(initialCache_base a c0 h0).1] at h3
      cases h3
    · intro q hq hfor
      have h1 : q ∈
          (primStage k (externStage k loc (afterCrawl k c0))).implementors :=
        fm q hq hfor
      rw [primStage_implementors] at h1
      have h2 : q ∈ (afterCrawl k c0).implementors := by
        unfold externStage at h1
        rw [(externLoop_fixed k.externs loc (afterCrawl k c0)).2.1] at h1
        exact h1
      have h3 : q ∈ c0.implementors := by
        unfold afterCrawl crawlStage at h2 hnC
        cases hm : k.module with
        | none => rw [hm] at h2; exact h2
        | some m =>
            rw [hm] at h2 hnC
            exact (crawlDecl_target_none m (pushCrateName k c0) t hnC).2 q h2 hfor
      rw [(initialCache_base a c0 h0).2.1] at h3
      cases h3

/-- C3: in the step sequence of `render`, the process-wide slot stays
empty through cache construction, crawl, extern-location recording,
primitive-location resolution and search-index construction, and is
filled exactly at the `publish` step with the fully built cache, which the
subsequent read-only steps observe unchanged; the published pair is the
very result of the build; a second publication replaces the slot while the
handle obtained from the first publication still denotes the first,
complete snapshot. -/
theorem C3_publish_after_build (k : Krate) (a : Option Analysis)
    (loc : ExternalCrate → ExternalLocation) (steps : List RenderStep)
    (final : Cache) (c2 : Cache)
    (h : renderSteps k a loc = some (steps, final)) :
    steps.map RenderStep.label =
      ["construct_cache", "fold_crate", "extern_locations",
       "primitive_locations", "build_index", "publish", "write_shared",
       "render_sources", "render_krate"] ∧
    steps.map RenderStep.slotAfter =
      [none, none, none, none, none, some final, some final, some final,
       some final] ∧
    renderBuild k a loc = some (final, final.search_index) ∧
    readSlot (publish none final) = some final ∧
    publish (publish none final) c2 = some c2 := by
  cases h0 : initialCache a with
  | none =>
      unfold renderSteps at h
      rw [h0] at h
      cases h
  | some c0 =>
      unfold renderSteps at h
      rw [h0] at h
      injection h with h'
      injection h' with hs hf
      subst hs
      subst hf
      refine ⟨rfl, rfl, ?_, rfl, rfl⟩
      unfold renderBuild
      rw [h0]
      rfl

/-! Concrete build scenario used to witness the claims: a crate whose root
module contains a public module `n` holding an implementation block that
forward-references struct `S`, a private module `m` declaring `S`, and a
trait declaration; two extern crates with overlapping primitive
definitions; one local primitive. -/

/-- Symbol identity of the struct `S` in the witness tree. -/
def wS : DefId := ⟨LOCAL_CRATE, 2⟩

/-- Symbol identity of the trait in the witness tree. -/
def wT : DefId := ⟨LOCAL_CRATE, 10⟩

/-- Witness declaration tree, with the implementation block occurring
before the declaration of its target type. -/
def wTree : Decl :=
  Decl.module 1 "root" true (DeclList.ofList
    [Decl.module 3 "n" true (DeclList.ofList [Decl.implBlock wS (some wT)]),
     Decl.module 4 "m" false
       (DeclList.ofList [Decl.leaf 2 "S" ItemType.Struct "doc"]),
     Decl.leaf 10 "Trait0" ItemType.Trait ""])

/-- Witness crate. -/
def wKrate : Krate :=
  { name := "krate0", module := some wTree,
    externs := [(1, { name := "exta", primitives := [7, 8] }),
                (2, { name := "extb", primitives := [8, 9] })],
    primitives := [9] }

/-- Witness location resolver. -/
def wLoc : ExternalCrate → ExternalLocation :=
  fun e => ExternalLocation.Remote e.name

/-- The cache produced by `initialCache none`, written out. -/
def wCache0 : Cache :=
  { typarams := Map.empty, impls := [], paths := Map.empty,
    external_paths := Map.empty, traits := Map.empty,
    implementors := [], extern_locations := Map.empty,
    primitive_locations := Map.empty, inlined := fun _ => false,
    stack := [], parent_stack := [], search_index := [],
    privmod := false, public_items := fun _ => false,
    orphan_methods := [] }

/-- Result of the witness build. -/
def wResult : Cache × List IndexItem := buildFrom wKrate wLoc wCache0

theorem C1_witness :
    wResult.1.primitive_locations 8 =
      if 8 ∈ wKrate.primitives then some LOCAL_CRATE
      else (wKrate.externs.find? (fun pr => decide (8 ∈ pr.2.primitives))).map
        Prod.fst :=
  C1_primitive_location_tiebreak wKrate none wLoc wResult.1 wResult.2 8 rfl

theorem C5_witness :
    wResult.2 = wResult.2 ∧ wResult.1.paths = wResult.1.paths :=
  C5_deterministic_build wKrate none wLoc wResult.1 wResult.2 wResult.1
    wResult.2 rfl rfl

theorem C7_witness :
    wResult.1.implementors = implementorsFromImpls wResult.1.impls :=
  C7_implementor_index_inverse wKrate none wLoc wResult.1 wResult.2 rfl

theorem C9_witness :
    wResult.1.extern_locations 1 =
      some (wLoc { name := "exta", primitives := [7, 8] }) ∧
    wResult.1.paths ⟨1, CRATE_NODE_ID⟩ = some (["exta"], ItemType.Module) :=
  C9_extern_crate_roots wKrate none wLoc wResult.1 wResult.2 1
    { name := "exta", primitives := [7, 8] } rfl (by decide) (by decide)

theorem C10_witness :
    (pushCrateName wKrate wCache0).stack = [wKrate.name] ∧
    (["krate0", "root", "m", "S"] : List String).head? = some wKrate.name :=
  C10_crate_name_first_segment wKrate none wCache0 wS
    (["krate0", "root", "m", "S"], ItemType.Struct) rfl (by decide) rfl

theorem C8_witness :
    (crawlDecl wTree { wCache0 with privmod := true }).search_index =
      ({ wCache0 with privmod := true } : Cache).search_index ∧
    (crawlDecl wTree { wCache0 with privmod := true }).paths =
      (crawlDecl wTree
        { { wCache0 with privmod := true } with privmod := false }).paths ∧
    (crawlDecl wTree { wCache0 with privmod := true }).impls =
      (crawlDecl wTree
        { { wCache0 with privmod := true } with privmod := false }).impls :=
  C8_private_scope_suppression wTree { wCache0 with privmod := true } rfl

theorem C2_amended_witness :
    (∀ w, wCache0.paths wS = some w →
      (afterCrawl wKrate wCache0).paths wS = some w) ∧
    wResult.1.paths wS = some (["krate0", "root", "m", "S"], ItemType.Struct) :=
  C2_amended_first_writer wKrate none wLoc wResult.1 wResult.2 wCache0 wS
    (["krate0", "root", "m", "S"], ItemType.Struct) rfl rfl (by decide)
    (by decide)

theorem C6_witness :
    ((wS, mkImplRecord (some wT) wS) ∈ (afterCrawl wKrate wCache0).impls ∨
      (wS, some wT) ∈ (afterCrawl wKrate wCache0).orphan_methods) ∧
    ((wResult.1.paths wS).isSome = true →
      (wS, mkImplRecord (some wT) wS) ∈ wResult.1.impls) ∧
    (wResult.1.paths wS = none → (∀ r, (wS, r) ∉ wResult.1.impls) ∧
      (∀ q ∈ wResult.1.implementors, q.2.for_ ≠ wS)) :=
  C6_orphan_queue_flush wKrate none wLoc wResult.1 wResult.2 wCache0 wS
    (some wT) rfl rfl (by decide)

/-- The fully built witness cache as published in the step trace. -/
def wFinal : Cache :=
  (buildIndexStage
    (primStage wKrate (externStage wKrate wLoc (afterCrawl wKrate wCache0)))).1

/-- The step trace of the witness build. -/
def wSteps : List RenderStep :=
  [{ label := "construct_cache", slotAfter := none },
   { label := "fold_crate", slotAfter := none },
   { label := "extern_locations", slotAfter := none },
   { label := "primitive_locations", slotAfter := none },
   { label := "build_index", slotAfter := none },
   { label := "publish", slotAfter := publish none wFinal },
   { label := "write_shared", slotAfter := publish none wFinal },
   { label := "render_sources", slotAfter := publish none wFinal },
   { label := "render_krate", slotAfter := publish none wFinal }]

theorem C3_witness :
    wSteps.map RenderStep.label =
      ["construct_cache", "fold_crate", "extern_locations",
       "primitive_locations", "build_index", "publish", "write_shared",
       "render_sources", "render_krate"] ∧
    wSteps.map RenderStep.slotAfter =
      [none, none, none, none, none, some wFinal, some wFinal, some wFinal,
       some wFinal] ∧
    renderBuild wKrate none wLoc = some (wFinal, wFinal.search_index) ∧
    readSlot (publish none wFinal) = some wFinal ∧
    publish (publish none wFinal) wCache0 = some wCache0 :=
  C3_publish_after_build wKrate none wLoc wSteps wFinal wCache0 rfl
